import Mathlib

/-!
# Verification of the strux on-device client: ExecManager and LogStreamer

Shallow embedding of `src/src/assets/client-base/exec.go` (the exec-session
manager and the log streamer).  Pure computations (exit-code normalisation,
shell resolution, line scanning/tailing) are translated as Lean functions;
the registry-manipulating operations are translated as functions on explicit
world states; the concurrency-sensitive code paths (`Start`/`Stop`/`waitLoop`
races, reader-versus-`Stop` races) are translated as deterministic small-step
machines driven by an explicit interleaving schedule, one atomic action per
lock-protected (or single) statement of the source.
-/

/-! ## Wait-outcome model (`waitLoop`, exec.go lines 158-174)

`cmd.Wait()` returns `nil` on a clean zero exit.  Modelled from the Go
standard library (`os/exec`): when the child exited with a non-zero status
*or was terminated by a signal*, `Wait` returns an `*exec.ExitError`, and
`(*exec.ExitError).ExitCode()` is the exit status for a normal exit and `-1`
for a signal-terminated process.  Any other failure of `Wait` itself is a
non-`ExitError` error. -/

inductive WaitOutcome where
  /-- Case: `Wait` returned `nil`: the process exited cleanly with status 0. -/
  | cleanExit : WaitOutcome
  /-- Case: `Wait` returned an `*exec.ExitError`: the process exited with the
  given non-zero status. -/
  | exited (code : Int) : WaitOutcome
  /-- Case: `Wait` returned an `*exec.ExitError`: the process was terminated by
  the given signal. -/
  | signalled (sig : Nat) : WaitOutcome
  /-- Case: `Wait` itself failed with an error that is not an `*exec.ExitError`. -/
  | waitError : WaitOutcome
deriving DecidableEq, Repr

/-- The test `err != nil` after `session.cmd.Wait()` (exec.go line 161). -/
def WaitOutcome.isErr : WaitOutcome → Bool
  | .cleanExit => false
  | _ => true

/-- The type assertion `err.(*exec.ExitError)` succeeds (exec.go line 162).
Modelled from the Go standard library: both a non-zero exit and a signal
termination produce an `*exec.ExitError`. -/
def WaitOutcome.isExitError : WaitOutcome → Bool
  | .exited _ => true
  | .signalled _ => true
  | _ => false

/-- The call `exitErr.ExitCode()` (exec.go line 163).  Modelled from the Go standard
library: the process's exit status, or `-1` if it was terminated by a
signal.  (The remaining cases never reach this call in the source.) -/
def WaitOutcome.exitErrorCode : WaitOutcome → Int
  | .exited c => c
  | .signalled _ => -1
  | _ => 0

/-- exec.go lines 160-167: `exitCode := 0; if err != nil { if exitErr, ok :=
err.(*exec.ExitError); ok { exitCode = exitErr.ExitCode() } else { exitCode
= 1 } }`. -/
def waitLoopExitCode (w : WaitOutcome) : Int :=
  if w.isErr then
    if w.isExitError then w.exitErrorCode else 1
  else 0

/-- The exit code exactly as claim C1 words it: 0 when the wait returns
cleanly, the process's own exit code when it exited non-zero, and 1 when the
wait failed abnormally, *for example when the process was killed by a
signal*. -/
def claimC1ExitCode : WaitOutcome → Int
  | .cleanExit => 0
  | .exited c => c
  | .signalled _ => 1
  | .waitError => 1

/-- The amended exit-code mapping: 0 on a clean wait, the `ExitError`'s
`ExitCode()` when `Wait` returns an `ExitError` — the process's own exit
code for a non-zero exit, `-1` for a signal-killed process — and 1 only
when `Wait` fails with a non-`ExitError` error. -/
def amendedExitCode : WaitOutcome → Int
  | .cleanExit => 0
  | .exited c => c
  | .signalled _ => -1
  | .waitError => 1

/-! ## Shell resolution (`ExecManager.Start`, exec.go lines 52-59)

`fileExists` is a helper of the client binary that is not among the provided
sources (only its call sites in exec.go are).  Modelled from the spec: the
availability/executability check used by shell resolution, an arbitrary
predicate on paths passed as a parameter `fe`. -/

/-- exec.go lines 52-59: `shellPath := shell; if shellPath == "" ||
!fileExists(shellPath) { if fileExists("/bin/bash") { shellPath =
"/bin/bash" } else { shellPath = "/bin/sh" } }`. -/
def resolveShell (fe : String → Bool) (shell : String) : String :=
  if shell == "" || !(fe shell) then
    if fe "/bin/bash" then "/bin/bash" else "/bin/sh"
  else shell

/-- Shell resolution exactly as claim C9 words it: `shellPath` itself when
it is non-empty and executable; otherwise the preferred shell `/bin/bash`
when it is available; otherwise the guaranteed-present fallback `/bin/sh`. -/
def claimC9Shell (fe : String → Bool) (shell : String) : String :=
  if shell ≠ "" ∧ fe shell = true then shell
  else if fe "/bin/bash" then "/bin/bash" else "/bin/sh"

/-! ## Sequential world model of the `ExecManager`

State of one `ExecManager` together with the OS-visible effects the claims
talk about (spawned/killed processes, closed PTYs, closed `done` channels).
The registry `sessions` is the Go map `m.sessions`; a Go map holds at most
one entry per key, which appears below as the `Nodup` hypothesis on the
ids.  Every mutation of the map happens under `m.mu`, so the API calls are
translated as sequential functions on this world (their internal
interleavings are treated in the machine models further down). -/

structure ExecSession where
  id : String
  /-- The child process (`cmd`); identified by its pid.  Always present
  once the session is registered (`pty.Start` succeeded). -/
  pid : Nat
  /-- The PTY file (`pty`); identified by an os-level handle number. -/
  ptyId : Nat
deriving DecidableEq, Repr

structure ExecWorld where
  /-- The map `m.sessions`: the registry, id → session. -/
  sessions : List ExecSession
  /-- Source of fresh pids / handle numbers. -/
  nextId : Nat
  /-- Processes spawned so far, with the shell path each was started with
  (`exec.Command(shellPath)` + `pty.Start`). -/
  spawned : List (Nat × String)
  /-- Pids on which `Process.Kill()` has been called. -/
  killed : List Nat
  /-- PTY handles on which `Close()` has been called. -/
  closedPtys : List Nat
  /-- Sessions (by pid) whose `done` channel has been closed. -/
  closedDones : List Nat
  /-- Pids for which the two workers (`readLoop`, `waitLoop`) were started. -/
  workers : List Nat
deriving DecidableEq, Repr

/-- Map lookup `m.sessions[sessionID]`. -/
def ExecWorld.find (w : ExecWorld) (sessionID : String) : Option ExecSession :=
  w.sessions.find? (fun s => s.id == sessionID)

inductive StartResult where
  | ok : StartResult
  | alreadyExists : StartResult
  | spawnFailed : StartResult
deriving DecidableEq, Repr

/-- The function `ExecManager.Start` (exec.go lines 44-85), run without interference.
`fe` is the `fileExists` predicate, `spawnOk` tells whether `pty.Start`
succeeds.  Duplicate check first (lines 45-50); then shell resolution
(52-59); then spawn (61-67); then registration (69-78) and the two workers
(80-81). -/
def execStart (fe : String → Bool) (spawnOk : Bool) (w : ExecWorld)
    (sessionID shell : String) : ExecWorld × StartResult :=
  if (w.find sessionID).isSome then (w, .alreadyExists)
  else
    let shellPath := resolveShell fe shell
    if !spawnOk then (w, .spawnFailed)
    else
      let pid := w.nextId
      ({ w with
          sessions := ⟨sessionID, pid, pid⟩ :: w.sessions
          nextId := pid + 1
          spawned := (pid, shellPath) :: w.spawned
          workers := pid :: w.workers }, .ok)

/-- The function `ExecManager.Stop` (exec.go lines 100-119): look up and delete under the
lock; if absent, return; otherwise close `done`, kill the process, close
the PTY. -/
def execStop (w : ExecWorld) (sessionID : String) : ExecWorld :=
  match w.find sessionID with
  | none => w
  | some sess =>
      { w with
          sessions := w.sessions.filter (fun s => !(s.id == sessionID))
          closedDones := sess.pid :: w.closedDones
          killed := sess.pid :: w.killed
          closedPtys := sess.ptyId :: w.closedPtys }

/-- The loop `for _, id := range ids { m.Stop(id) }` (exec.go lines 129-131). -/
def execStopList (w : ExecWorld) : List String → ExecWorld
  | [] => w
  | sessionID :: rest => execStopList (execStop w sessionID) rest

/-- The function `ExecManager.StopAll` (exec.go lines 121-132): snapshot the ids under
the lock, then stop each one. -/
def execStopAll (w : ExecWorld) : ExecWorld :=
  execStopList w (w.sessions.map (fun s => s.id))

/-- An output/exit/error event delivered on the manager's callbacks. -/
inductive ExecEvent where
  | output (id stream data : String)
  | exitCb (id : String) (code : Int)
  | errorCb (id : String)
deriving DecidableEq, Repr

/-- The worker `ExecManager.waitLoop` (exec.go lines 158-174), run from the moment
`session.cmd.Wait()` returns with outcome `res`: compute the exit code,
invoke `m.onExit(session.id, exitCode)`, then call `m.Stop(session.id)`.
Returns the delivered events and the resulting world. -/
def waitLoopRun (w : ExecWorld) (sess : ExecSession) (res : WaitOutcome) :
    List ExecEvent × ExecWorld :=
  ([.exitCb sess.id (waitLoopExitCode res)], execStop w sess.id)

/-! ## Sequential world model of the `LogStreamer`

State of one `LogStreamer` (exec.go, second file, lines 175-641) together
with the OS-visible effects.  A `LogStream` is either command-kind (holds a
child process) or file-kind (holds a file handle once the tailer has opened
it); each stream is given a unique `uid` so that its `done` channel and
`stopped` flag can be tracked after removal from the registry. -/

inductive LogStreamKind where
  | command : LogStreamKind
  | file : LogStreamKind
deriving DecidableEq, Repr

structure LogStream where
  uid : Nat
  ID : String
  Service : String
  StreamType : LogStreamKind
  /-- Field `cmd`: the follower process's pid, `none` for file streams. -/
  cmd : Option Nat
  /-- Field `file`: the open file handle, `none` for command streams and for file
  streams whose tailer has not opened the file yet. -/
  fileH : Option Nat
deriving DecidableEq, Repr

structure LogWorld where
  /-- The map `l.streams`: the registry, id → stream. -/
  streams : List LogStream
  nextId : Nat
  /-- Follower processes spawned so far (pids). -/
  spawned : List Nat
  /-- Pids on which `Process.Kill()` has been called. -/
  killed : List Nat
  /-- File handles on which `Close()` has been called. -/
  closedFiles : List Nat
  /-- Streams (by uid) whose `done` channel has been closed. -/
  closedDones : List Nat
  /-- Streams (by uid) whose `stopped` flag has been set. -/
  stoppedSet : List Nat
deriving DecidableEq, Repr

/-- Map lookup `l.streams[streamID]`. -/
def LogWorld.find (w : LogWorld) (streamID : String) : Option LogStream :=
  w.streams.find? (fun s => s.ID == streamID)

/-- The function `LogStreamer.StartJournalctlStream` (exec.go lines 234-263), the whole
body under `l.mu`: duplicate check, spawn `journalctl -f` via
`startCommandStream` (which may fail), register the stream.  `spawnOk`
tells whether `cmd.Start()` succeeds. -/
def startJournalctlStream (spawnOk : Bool) (w : LogWorld) (streamID : String) :
    LogWorld × StartResult :=
  if (w.find streamID).isSome then (w, .alreadyExists)
  else if !spawnOk then (w, .spawnFailed)
  else
    let pid := w.nextId
    ({ w with
        streams := ⟨pid, streamID, "", .command, some pid, none⟩ :: w.streams
        nextId := pid + 1
        spawned := pid :: w.spawned }, .ok)

/-- The teardown statements shared by `LogStreamer.Stop` (exec.go lines
579-595) and the loop body of `LogStreamer.StopAll` (lines 616-626): set
`stopped` under the stream lock, close `done`, kill the process if the
stream has one, close the file if the stream has one. -/
def logTeardown (w : LogWorld) (s : LogStream) : LogWorld :=
  let w1 := { w with
      stoppedSet := s.uid :: w.stoppedSet
      closedDones := s.uid :: w.closedDones }
  let w2 := match s.cmd with
    | some pid => { w1 with killed := pid :: w1.killed }
    | none => w1
  match s.fileH with
  | some f => { w2 with closedFiles := f :: w2.closedFiles }
  | none => w2

/-- The function `LogStreamer.Stop` (exec.go lines 566-596): look up and delete under
`l.mu`; if absent, warn and return; otherwise tear the stream down. -/
def logStop (w : LogWorld) (streamID : String) : LogWorld :=
  match w.find streamID with
  | none => w
  | some s =>
      logTeardown
        { w with streams := w.streams.filter (fun t => !(t.ID == streamID)) } s

/-- The function `LogStreamer.StopAll` (exec.go lines 599-628): snapshot all streams and
clear the map under `l.mu`, then tear each snapshotted stream down outside
the lock. -/
def logStopAll (w : LogWorld) : LogWorld :=
  let snapshot := w.streams
  snapshot.foldl logTeardown { w with streams := [] }

/-! ## Line delivery: `readPipe` and `tailFile`

Both workers deliver text lines on the stream callback.  Strings are
embedded as `List Char`.  `findNl` is the delimiter search shared by
`bufio.Scanner` (ScanLines) and `bufio.Reader.ReadString` of a newline. -/

/-- Index of the first `'\n'`, if any. -/
def findNl : List Char → Option Nat
  | [] => none
  | c :: cs => if c == '\n' then some 0 else (findNl cs).map (· + 1)

/-- The helper `dropCR` of `bufio.ScanLines`: drop one terminal `'\r'` from a token. -/
def dropCR (l : List Char) : List Char :=
  if l.getLast? == some '\r' then l.dropLast else l

/-- The token sequence `bufio.Scanner` (split function ScanLines) produces
over a whole input: tokens are the runs between newlines with the newline
excluded and one terminal carriage return dropped; at end of input a final
non-empty remainder is a token and an empty remainder produces none.
Structured with explicit fuel (each step consumes at least one character,
so `cs.length` steps always suffice — `scanTokens` below supplies them). -/
def scanTokensFuel : Nat → List Char → List (List Char)
  | 0, _ => []
  | fuel + 1, cs =>
      match findNl cs with
      | some r => dropCR (cs.take r) :: scanTokensFuel fuel (cs.drop (r + 1))
      | none => if cs.isEmpty then [] else [dropCR cs]

def scanTokens (cs : List Char) : List (List Char) :=
  scanTokensFuel cs.length cs

/-- The worker `LogStreamer.readPipe` (exec.go lines 480-514): scan the pipe's whole
contents into lines and invoke the callback on each non-empty line (`if
line != ""`).  Returns the lines delivered to the callback, in order.
(The `done`/`stopped` cancellation checks of the loop are modelled in the
interleaving machine below; here the stream runs undisturbed.) -/
def readPipeRun (pipe : List Char) : List (List Char) :=
  (scanTokens pipe).filter (fun l => !l.isEmpty)

/-! ### The file tailer (`startFileStream` + `tailFile`)

`startFileStream` (exec.go lines 427-477) opens the file and seeks to its
end: `file.Seek(0, io.SeekEnd)`, so the reader's unread suffix is empty
regardless of the content already present.  `tailFile` (lines 517-556)
loops: `reader.ReadString('\n')`; on success strip the trailing newline and
deliver the line if non-empty; on `io.EOF` sleep and retry — note that the
bytes of an incomplete final line have already been consumed from the
reader and are discarded by this branch.  The tailer state is the unread
suffix of the file plus the lines delivered so far; writers append to the
suffix. -/

structure TailState where
  /-- File content after the reader's current offset. -/
  unread : List Char
  /-- Lines delivered to the callback, oldest first. -/
  out : List (List Char)
deriving DecidableEq, Repr

/-- One iteration of the `tailFile` loop body (exec.go lines 530-554). -/
def tailPoll (st : TailState) : TailState :=
  match findNl st.unread with
  | none => { st with unread := [] }
  | some r =>
      let line := st.unread.take r
      { unread := st.unread.drop (r + 1)
        out := st.out ++ (if line.isEmpty then [] else [line]) }

/-- An interleaving step against a tailed file: either the producing
process appends one line (the line's text followed by `'\n'`, written
atomically), or the tailer runs one loop iteration. -/
inductive TailOp where
  | append (l : List Char) : TailOp
  | poll : TailOp
deriving DecidableEq, Repr

def tailExec : TailState → List TailOp → TailState
  | st, [] => st
  | st, .append l :: rest => tailExec { st with unread := st.unread ++ l ++ ['\n'] } rest
  | st, .poll :: rest => tailExec (tailPoll st) rest

/-- After the writers are done the tailer keeps polling; every iteration on
a non-empty unread suffix consumes at least one character, so
`unread.length` iterations drain everything currently in the file. -/
def tailDrainFuel : Nat → TailState → List (List Char)
  | 0, st => st.out
  | fuel + 1, st => if st.unread.isEmpty then st.out else tailDrainFuel fuel (tailPoll st)

/-- The lines appended by a schedule, in order. -/
def appendsOf : List TailOp → List (List Char)
  | [] => []
  | .append l :: rest => l :: appendsOf rest
  | .poll :: rest => appendsOf rest

/-- Full run of a file-tail stream: `startFileStream` opens a file whose
current content is `initContent` and seeks to its end (nothing of it is
unread), then the tail loop and the writers interleave according to `ops`,
and finally the tailer drains whatever is left. -/
def tailRun (initContent : List Char) (ops : List TailOp) : List (List Char) :=
  let st := tailExec { unread := initContent.drop initContent.length, out := [] } ops
  tailDrainFuel st.unread.length st

/-- A list of text lines written one after another to a file, each
terminated by `'\n'` (the shape a well-behaved log producer appends in). -/
def encodeLines : List (List Char) → List Char
  | [] => []
  | l :: ls => l ++ '\n' :: encodeLines ls

/-! ## Interleaving machine for the `ExecManager`

A deterministic small-step machine over explicit schedules.  Two client
threads each run `Start(sid, shell)`; `Start` is split at its lock
boundaries (exec.go lines 45-50 check under `m.mu`, lines 52-67 spawn
without the lock, lines 76-84 insert under `m.mu`), which is exactly the
granularity the Go code has.  `Stop` and `waitLoop` act on the shared
state.  An action whose thread is not at the corresponding program point
is a no-op (that interleaving simply does not schedule it). -/

inductive ThreadPhase where
  | idle : ThreadPhase
  /-- Passed the duplicate check (lines 45-50) without finding `sid`. -/
  | checked : ThreadPhase
  /-- State after `pty.Start` succeeded for a fresh process `pid` (lines 61-67). -/
  | mkproc (pid : Nat) : ThreadPhase
  /-- Terminal phase: `Start` returned with this result. -/
  | retd (r : StartResult) : ThreadPhase
deriving DecidableEq, Repr

/-- A session object (`&ExecSession{...}`, exec.go lines 69-74), which the
worker goroutines keep a pointer to even after it leaves the map. -/
structure MSession where
  uid : Nat
  id : String
  pid : Nat
  doneClosed : Bool
  /-- Whether this session's `waitLoop` already ran (it runs once). -/
  waitFired : Bool
deriving DecidableEq, Repr

inductive MEvent where
  | startReturned (t : Bool) (r : StartResult)
  | stopReturned (id : String)
  | exitCb (id : String) (code : Int)
deriving DecidableEq, Repr

structure ExecMach where
  /-- The map `m.sessions` as id → session uid. -/
  registry : List (String × Nat)
  /-- Every session object ever created. -/
  pool : List MSession
  /-- Pids of currently live processes. -/
  procAlive : List Nat
  phase0 : ThreadPhase
  phase1 : ThreadPhase
  nextUid : Nat
  events : List MEvent
deriving DecidableEq, Repr

def ExecMach.getPhase (m : ExecMach) (t : Bool) : ThreadPhase :=
  if t then m.phase1 else m.phase0

def ExecMach.setPhase (m : ExecMach) (t : Bool) (p : ThreadPhase) : ExecMach :=
  if t then { m with phase1 := p } else { m with phase0 := p }

/-- The body of `ExecManager.Stop` (exec.go lines 100-119): remove from the
map if present; close the session's `done`; kill its process; close its
PTY.  Shared by the `Stop` API call and the tail call in `waitLoop`. -/
def doStop (m : ExecMach) (sid : String) : ExecMach :=
  match m.registry.find? (fun e => e.1 == sid) with
  | none => m
  | some e =>
      let m1 := { m with registry := m.registry.filter (fun x => !(x.1 == sid)) }
      match m1.pool.find? (fun s => s.uid == e.2) with
      | none => m1
      | some sess =>
          { m1 with
              pool := m1.pool.map (fun s =>
                if s.uid == e.2 then { s with doneClosed := true } else s)
              procAlive := m1.procAlive.filter (fun p => !(p == sess.pid)) }

inductive MAct where
  /-- Thread `t` runs lines 45-50 (duplicate check under the lock). -/
  | startCheck (t : Bool)
  /-- Thread `t` runs lines 52-67 (shell resolution and `pty.Start`). -/
  | startSpawn (t : Bool)
  /-- Thread `t` runs lines 76-84 (insert under the lock, launch workers,
  return `nil`). -/
  | startInsert (t : Bool)
  /-- An external `m.Stop(sid)` call runs to completion and returns. -/
  | stopCall
  /-- Session `uid`'s `waitLoop` (lines 158-174) resumes: enabled once its
  process is dead; the only way a process dies in this machine is
  `Process.Kill()`, so `Wait` yields an `ExitError` for a SIGKILL. -/
  | waitRet (uid : Nat)
deriving DecidableEq, Repr

def execMachStep (sid : String) (m : ExecMach) : MAct → ExecMach
  | .startCheck t =>
      match m.getPhase t with
      | .idle =>
          if (m.registry.find? (fun e => e.1 == sid)).isSome then
            let m1 := m.setPhase t (.retd .alreadyExists)
            { m1 with events := m1.events ++ [.startReturned t .alreadyExists] }
          else m.setPhase t .checked
      | _ => m
  | .startSpawn t =>
      match m.getPhase t with
      | .checked =>
          let pid := m.nextUid
          let m1 := m.setPhase t (.mkproc pid)
          { m1 with nextUid := pid + 1, procAlive := pid :: m1.procAlive }
      | _ => m
  | .startInsert t =>
      match m.getPhase t with
      | .mkproc pid =>
          let m1 := m.setPhase t (.retd .ok)
          { m1 with
              pool := m1.pool ++ [⟨pid, sid, pid, false, false⟩]
              registry := (sid, pid) :: m1.registry.filter (fun x => !(x.1 == sid))
              events := m1.events ++ [.startReturned t .ok] }
      | _ => m
  | .stopCall =>
      let m1 := doStop m sid
      { m1 with events := m1.events ++ [.stopReturned sid] }
  | .waitRet uid =>
      match m.pool.find? (fun s => s.uid == uid) with
      | none => m
      | some sess =>
          if sess.waitFired || m.procAlive.contains sess.pid then m
          else
            let m1 := { m with
                pool := m.pool.map (fun s =>
                  if s.uid == uid then { s with waitFired := true } else s)
                events := m.events ++ [.exitCb sess.id (waitLoopExitCode (.signalled 9))] }
            doStop m1 sess.id

def execMachRun (sid : String) (m : ExecMach) (sched : List MAct) : ExecMach :=
  sched.foldl (execMachStep sid) m

def execMachInit : ExecMach :=
  { registry := [], pool := [], procAlive := [], phase0 := .idle, phase1 := .idle
    nextUid := 0, events := [] }

/-! ## Interleaving machine for one `LogStream` (command kind)

One registered command stream, its two reader workers — `startCommandStream`
(exec.go lines 410-413) launches one `readPipe` goroutine over stdout and a
second one over stderr, both feeding the same callback (`readPipe` itself is
lines 480-514, split here at each statement that touches shared state) —
its waiter goroutine (lines 416-421 ending in `cleanupStream`, lines
559-563), and one external `Stop` call (lines 566-596, split at its lock
boundaries).  The machine additionally counts how many times
`close(stream.done)` ran and, for each reader, how many of its callback
deliveries happened after the `Stop` call returned. -/

inductive RPhase where
  /-- Top of the `readPipe` loop, before the `select` on `done`. -/
  | atLoop : RPhase
  /-- Passed the `done` check, about to call `scanner.Scan()`. -/
  | atScan : RPhase
  /-- State where `Scan` returned a non-empty line (the `line != ""` test passed). -/
  | haveLine (l : List Char) : RPhase
  /-- Read `stream.stopped` as false; about to call the callback. -/
  | readyDeliver (l : List Char) : RPhase
  | finished : RPhase
deriving DecidableEq, Repr

inductive WPhase where
  /-- Blocked in `stream.cmd.Wait()`. -/
  | waiting : WPhase
  /-- State where `Wait` returned; in the grace-period sleep before cleanup. -/
  | cleaning : WPhase
  /-- State where `cleanupStream` is done. -/
  | cleaned : WPhase
deriving DecidableEq, Repr

inductive SPhase where
  | sIdle : SPhase
  /-- Looked the stream up and deleted it from the map (lines 567-575). -/
  | sRemoved : SPhase
  /-- Set `stream.stopped = true` under `stream.mu` (lines 580-582). -/
  | sFlagged : SPhase
  /-- Ran `close(stream.done)` (line 585). -/
  | sClosed : SPhase
  /-- Killed the process (lines 588-590; a command stream has no file). -/
  | sKilled : SPhase
  /-- State where `Stop` returned (either after teardown or straight from the
  not-found branch). -/
  | sRetd : SPhase
deriving DecidableEq, Repr

structure LogMach where
  /-- The stream is present in `l.streams`. -/
  registered : Bool
  /-- The flag `stream.stopped`. -/
  stopped : Bool
  /-- How many times `close(stream.done)` has run. -/
  doneCloseCount : Nat
  procAlive : Bool
  /-- Scanner tokens still to be produced by the stdout pipe. -/
  pending : List (List Char)
  /-- Scanner tokens still to be produced by the stderr pipe. -/
  pending2 : List (List Char)
  /-- Program counter of the stdout `readPipe` worker. -/
  rphase : RPhase
  /-- Program counter of the stderr `readPipe` worker. -/
  rphase2 : RPhase
  wphase : WPhase
  sphase : SPhase
  /-- The `Stop` call found the stream registered and removed it. -/
  stopFound : Bool
  /-- The `Stop` call has returned. -/
  stopRetSeen : Bool
  /-- Stdout-reader callback deliveries that happened after `Stop` returned. -/
  lateDeliveries1 : Nat
  /-- Stderr-reader callback deliveries that happened after `Stop` returned. -/
  lateDeliveries2 : Nat
deriving DecidableEq, Repr

inductive LAct where
  /-- Stdout reader: the `select` on `stream.done` (lines 488-492). -/
  | readerCheckDone : LAct
  /-- Stdout reader: `scanner.Scan()` + `line := scanner.Text()` + the
  `line != ""` test (lines 494-499).  Blocked while the pipe is empty and
  the process lives; end of loop at EOF. -/
  | readerScan : LAct
  /-- Stdout reader: read `stream.stopped` under `stream.mu` and return if
  it is set (lines 501-506). -/
  | readerCheckFlag : LAct
  /-- Stdout reader: `stream.callback(line)` (line 507). -/
  | readerDeliver : LAct
  /-- Stderr reader: the `select` on `stream.done` (lines 488-492). -/
  | reader2CheckDone : LAct
  /-- Stderr reader: `scanner.Scan()` + the `line != ""` test
  (lines 494-499). -/
  | reader2Scan : LAct
  /-- Stderr reader: read `stream.stopped` under `stream.mu`
  (lines 501-506). -/
  | reader2CheckFlag : LAct
  /-- Stderr reader: `stream.callback(line)` (line 507). -/
  | reader2Deliver : LAct
  /-- The follower process terminates on its own. -/
  | procExit : LAct
  /-- Waiter: `stream.cmd.Wait()` returns (line 417). -/
  | waiterRet : LAct
  /-- Waiter: `cleanupStream(stream.ID)` (lines 420, 559-563): removes the
  stream from the map — and nothing else: it neither sets `stopped` nor
  closes `done`. -/
  | waiterCleanup : LAct
  /-- Stop: lookup-and-delete under `l.mu` (lines 567-575); the not-found
  branch returns immediately. -/
  | stopRemove : LAct
  /-- Stop: `stream.stopped = true` (lines 580-582). -/
  | stopSetFlag : LAct
  /-- Stop: `close(stream.done)` (line 585). -/
  | stopCloseDone : LAct
  /-- Stop: `stream.cmd.Process.Kill()` (lines 588-590). -/
  | stopKill : LAct
  /-- Stop returns to its caller. -/
  | stopReturn : LAct
deriving DecidableEq, Repr

def logMachStep (m : LogMach) : LAct → LogMach
  | .readerCheckDone =>
      match m.rphase with
      | .atLoop => if m.doneCloseCount > 0 then { m with rphase := .finished }
                   else { m with rphase := .atScan }
      | _ => m
  | .readerScan =>
      match m.rphase with
      | .atScan =>
          match m.pending with
          | l :: rest =>
              if l.isEmpty then { m with pending := rest, rphase := .atLoop }
              else { m with pending := rest, rphase := .haveLine l }
          | [] => if m.procAlive then m else { m with rphase := .finished }
      | _ => m
  | .readerCheckFlag =>
      match m.rphase with
      | .haveLine l =>
          if m.stopped then { m with rphase := .finished }
          else { m with rphase := .readyDeliver l }
      | _ => m
  | .readerDeliver =>
      match m.rphase with
      | .readyDeliver _ =>
          { m with
              rphase := .atLoop
              lateDeliveries1 :=
                m.lateDeliveries1 + (if m.stopRetSeen then 1 else 0) }
      | _ => m
  | .reader2CheckDone =>
      match m.rphase2 with
      | .atLoop => if m.doneCloseCount > 0 then { m with rphase2 := .finished }
                   else { m with rphase2 := .atScan }
      | _ => m
  | .reader2Scan =>
      match m.rphase2 with
      | .atScan =>
          match m.pending2 with
          | l :: rest =>
              if l.isEmpty then { m with pending2 := rest, rphase2 := .atLoop }
              else { m with pending2 := rest, rphase2 := .haveLine l }
          | [] => if m.procAlive then m else { m with rphase2 := .finished }
      | _ => m
  | .reader2CheckFlag =>
      match m.rphase2 with
      | .haveLine l =>
          if m.stopped then { m with rphase2 := .finished }
          else { m with rphase2 := .readyDeliver l }
      | _ => m
  | .reader2Deliver =>
      match m.rphase2 with
      | .readyDeliver _ =>
          { m with
              rphase2 := .atLoop
              lateDeliveries2 :=
                m.lateDeliveries2 + (if m.stopRetSeen then 1 else 0) }
      | _ => m
  | .procExit => { m with procAlive := false }
  | .waiterRet =>
      match m.wphase with
      | .waiting => if m.procAlive then m else { m with wphase := .cleaning }
      | _ => m
  | .waiterCleanup =>
      match m.wphase with
      | .cleaning => { m with registered := false, wphase := .cleaned }
      | _ => m
  | .stopRemove =>
      match m.sphase with
      | .sIdle =>
          if m.registered then
            { m with registered := false, stopFound := true, sphase := .sRemoved }
          else { m with sphase := .sRetd, stopRetSeen := true }
      | _ => m
  | .stopSetFlag =>
      match m.sphase with
      | .sRemoved => { m with stopped := true, sphase := .sFlagged }
      | _ => m
  | .stopCloseDone =>
      match m.sphase with
      | .sFlagged => { m with doneCloseCount := m.doneCloseCount + 1, sphase := .sClosed }
      | _ => m
  | .stopKill =>
      match m.sphase with
      | .sClosed => { m with procAlive := false, sphase := .sKilled }
      | _ => m
  | .stopReturn =>
      match m.sphase with
      | .sKilled => { m with sphase := .sRetd, stopRetSeen := true }
      | _ => m

def logMachRun (m : LogMach) (sched : List LAct) : LogMach :=
  sched.foldl logMachStep m

/-- A freshly started command stream (`StartJournalctlStream` succeeded):
registered, not stopped, `done` never closed, process alive, both readers
at the top of their loops, waiter blocked in `Wait`, no `Stop` call yet. -/
def logMachInit (pending pending2 : List (List Char)) : LogMach :=
  { registered := true, stopped := false, doneCloseCount := 0, procAlive := true
    pending := pending, pending2 := pending2, rphase := .atLoop
    rphase2 := .atLoop, wphase := .waiting, sphase := .sIdle
    stopFound := false, stopRetSeen := false, lateDeliveries1 := 0
    lateDeliveries2 := 0 }

/-- Pending deliveries the reader is already committed to: 1 when it has
passed its `stopped` check and holds a line, 0 otherwise. -/
def deliverPot : RPhase → Nat
  | .readyDeliver _ => 1
  | _ => 0

/-- The `Stop` call has executed `stream.stopped = true` by this phase. -/
def sFlagSet : SPhase → Bool
  | .sFlagged => true
  | .sClosed => true
  | .sKilled => true
  | .sRetd => true
  | _ => false

/-- The `Stop` call has executed `close(stream.done)` by this phase. -/
def sDoneClosed : SPhase → Bool
  | .sClosed => true
  | .sKilled => true
  | .sRetd => true
  | _ => false

/-- Phases reachable only through the found-and-removed branch of `Stop`. -/
def sFoundPath : SPhase → Bool
  | .sRemoved => true
  | .sFlagged => true
  | .sClosed => true
  | .sKilled => true
  | _ => false

/-- The inductive invariant of the `LogStream` machine: `done` is closed
exactly when the `Stop` call that removed the stream has reached its
close step (hence at most once, and only by the remover); the `stopped`
flag is set before `Stop` returns; and once `Stop` has returned, each of
the two readers can owe at most one delivery — the one it was already
committed to when the flag was set. -/
def LogInv (m : LogMach) : Prop :=
  m.doneCloseCount = (if m.stopFound && sDoneClosed m.sphase then 1 else 0) ∧
  (m.stopFound = true → m.registered = false) ∧
  (m.stopFound = true → sFlagSet m.sphase = true → m.stopped = true) ∧
  (m.stopRetSeen = true ↔ m.sphase = SPhase.sRetd) ∧
  (m.stopRetSeen = false → m.lateDeliveries1 = 0) ∧
  (m.stopRetSeen = false → m.lateDeliveries2 = 0) ∧
  (m.stopFound = true → m.stopRetSeen = true →
    m.lateDeliveries1 + deliverPot m.rphase ≤ 1) ∧
  (m.stopFound = true → m.stopRetSeen = true →
    m.lateDeliveries2 + deliverPot m.rphase2 ≤ 1) ∧
  (m.stopFound = true → m.sphase ≠ SPhase.sIdle) ∧
  (sFoundPath m.sphase = true → m.stopFound = true)

/-! ## Concrete example worlds (used by the witness theorems) -/

/-- An `ExecManager` with one registered session `"s"`. -/
def execW1 : ExecWorld :=
  { sessions := [⟨"s", 0, 0⟩], nextId := 1, spawned := [(0, "/bin/sh")]
    killed := [], closedPtys := [], closedDones := [], workers := [0] }

/-- An empty `ExecManager`. -/
def execW0 : ExecWorld :=
  { sessions := [], nextId := 0, spawned := [], killed := [], closedPtys := []
    closedDones := [], workers := [] }

/-- A `LogStreamer` with one registered command stream `"j"` and one
registered file stream `"t"` whose tailer has opened its file. -/
def logW1 : LogWorld :=
  { streams := [⟨0, "j", "", .command, some 0, none⟩, ⟨1, "t", "", .file, none, some 1⟩]
    nextId := 2, spawned := [0], killed := [], closedFiles := []
    closedDones := [], stoppedSet := [] }

/-! # Theorems -/

/-! ## Generic registry helpers -/

theorem find?_filter_not {α : Type} (l : List α) (p : α → Bool) :
    (l.filter (fun a => !(p a))).find? p = none := by
  induction l with
  | nil => rfl
  | cons a t ih =>
      by_cases h : p a
      · simp [List.filter_cons, h, ih]
      · simp [List.filter_cons, h, List.find?_cons, ih]

theorem filter_not_of_find?_none {α : Type} (l : List α) (p : α → Bool)
    (h : l.find? p = none) : l.filter (fun a => !(p a)) = l := by
  refine List.filter_eq_self.mpr ?_
  intro a ha
  simpa using List.find?_eq_none.mp h a ha

/-! ## `waitLoop` exit codes (C1) -/

/-- The exit-code normalisation of `waitLoop` coincides with the amended mapping:
the `ExitError` branch reports the library's `ExitCode()` — which is `-1`,
not `1`, for a signal-killed process. -/
theorem waitLoopExitCode_eq_amended (res : WaitOutcome) :
    waitLoopExitCode res = amendedExitCode res := by
  cases res <;> rfl

theorem execStop_sessions (w : ExecWorld) (sid : String) :
    (execStop w sid).sessions = w.sessions.filter (fun s => !(s.id == sid)) := by
  unfold execStop
  cases h : w.find sid with
  | none =>
      simp only
      exact (filter_not_of_find?_none w.sessions (fun s => s.id == sid) h).symm
  | some s => rfl

/-- C1 (amended): for every wait outcome the wait loop delivers the exit
callback exactly once, with exit code 0 on a clean wait, the `ExitError`'s
`ExitCode()` when the wait returns an `ExitError` (the process's own code
for a non-zero exit, `-1` for a signal-killed process), and 1 only when the
wait fails with a non-`ExitError` error; afterwards it removes the session
from the registry and tears it down (kills the process, closes the `done`
channel and the PTY). -/
theorem C1_waitLoop_exit_amended (w : ExecWorld) (sess : ExecSession)
    (res : WaitOutcome) (h : w.find sess.id = some sess) :
    (waitLoopRun w sess res).1 = [ExecEvent.exitCb sess.id (amendedExitCode res)] ∧
    (waitLoopRun w sess res).2.find sess.id = none ∧
    sess.pid ∈ (waitLoopRun w sess res).2.killed ∧
    sess.pid ∈ (waitLoopRun w sess res).2.closedDones ∧
    sess.ptyId ∈ (waitLoopRun w sess res).2.closedPtys := by
  refine ⟨by simp [waitLoopRun, waitLoopExitCode_eq_amended], ?_, ?_, ?_, ?_⟩
  · show (execStop w sess.id).find sess.id = none
    unfold ExecWorld.find
    rw [execStop_sessions]
    exact find?_filter_not _ _
  · show sess.pid ∈ (execStop w sess.id).killed
    unfold execStop
    rw [h]
    exact List.mem_cons_self _ _
  · show sess.pid ∈ (execStop w sess.id).closedDones
    unfold execStop
    rw [h]
    exact List.mem_cons_self _ _
  · show sess.ptyId ∈ (execStop w sess.id).closedPtys
    unfold execStop
    rw [h]
    exact List.mem_cons_self _ _

/-- Witness for C1: a concrete manager holding session `"s"`, whose process
exits cleanly. -/
theorem C1_waitLoop_witness :
    (waitLoopRun execW1 ⟨"s", 0, 0⟩ WaitOutcome.cleanExit).1 =
      [ExecEvent.exitCb "s" (amendedExitCode WaitOutcome.cleanExit)] ∧
    (waitLoopRun execW1 ⟨"s", 0, 0⟩ WaitOutcome.cleanExit).2.find "s" = none ∧
    (0 : Nat) ∈ (waitLoopRun execW1 ⟨"s", 0, 0⟩ WaitOutcome.cleanExit).2.killed ∧
    (0 : Nat) ∈ (waitLoopRun execW1 ⟨"s", 0, 0⟩ WaitOutcome.cleanExit).2.closedDones ∧
    (0 : Nat) ∈ (waitLoopRun execW1 ⟨"s", 0, 0⟩ WaitOutcome.cleanExit).2.closedPtys :=
  C1_waitLoop_exit_amended execW1 ⟨"s", 0, 0⟩ WaitOutcome.cleanExit (by decide)

/-- Counterexample to C1 as stated: a process killed by a signal (SIGKILL)
makes `cmd.Wait` return an `*exec.ExitError`, so `waitLoop` reports
`ExitCode() = -1` on the exit callback — not `1` as the claim (and the
spec's "e.g. killed by signal") demands. -/
theorem C1_counterexample :
    waitLoopExitCode (WaitOutcome.signalled 9) = -1 ∧
    claimC1ExitCode (WaitOutcome.signalled 9) = 1 ∧
    waitLoopExitCode (WaitOutcome.signalled 9) ≠
      claimC1ExitCode (WaitOutcome.signalled 9) := by
  refine ⟨rfl, rfl, by decide⟩

/-! ## Duplicate identifiers are rejected without side effects (C5) -/

/-- C5: when `sessionID`/`streamID` is already registered, both
`ExecManager.Start` and `LogStreamer.StartJournalctlStream` return the
`AlreadyExists` error and leave the world untouched: the registry is
unchanged, nothing is spawned, and no workers are started — regardless of
the filesystem and of whether a spawn would have succeeded. -/
theorem C5_duplicate_start_no_side_effects :
    (∀ (fe : String → Bool) (spawnOk : Bool) (w : ExecWorld) (sid sh : String),
      (w.find sid).isSome = true →
      execStart fe spawnOk w sid sh = (w, StartResult.alreadyExists)) ∧
    (∀ (spawnOk : Bool) (w : LogWorld) (sid : String),
      (w.find sid).isSome = true →
      startJournalctlStream spawnOk w sid = (w, StartResult.alreadyExists)) := by
  constructor
  · intro fe spawnOk w sid sh h
    unfold execStart
    rw [h]
    rfl
  · intro spawnOk w sid h
    unfold startJournalctlStream
    rw [h]
    rfl

/-- Witness for C5: session `"s"` and stream `"j"` are occupied. -/
theorem C5_duplicate_start_witness :
    execStart (fun _ => true) true execW1 "s" "/bin/zsh" =
      (execW1, StartResult.alreadyExists) ∧
    startJournalctlStream true logW1 "j" = (logW1, StartResult.alreadyExists) :=
  ⟨C5_duplicate_start_no_side_effects.1 (fun _ => true) true execW1 "s" "/bin/zsh"
      (by decide),
    C5_duplicate_start_no_side_effects.2 true logW1 "j" (by decide)⟩

/-! ## `Stop` is idempotent (C8) -/

theorem logTeardown_streams (w : LogWorld) (s : LogStream) :
    (logTeardown w s).streams = w.streams := by
  unfold logTeardown
  cases s.cmd <;> cases s.fileH <;> rfl

theorem logStop_streams (w : LogWorld) (sid : String) :
    (logStop w sid).streams = w.streams.filter (fun t => !(t.ID == sid)) := by
  unfold logStop
  cases h : w.find sid with
  | none =>
      simp only
      exact (filter_not_of_find?_none w.streams (fun t => t.ID == sid) h).symm
  | some s => rw [logTeardown_streams]

/-- C8: `Stop(id)` is idempotent on both managers: when `id` is not
registered it is a no-op that leaves the whole world unchanged, and calling
it twice in a row produces exactly the state of calling it once (the second
call finds nothing, so no process is re-killed and no handle re-closed). -/
theorem C8_stop_idempotent :
    (∀ (w : ExecWorld) (sid : String), w.find sid = none → execStop w sid = w) ∧
    (∀ (w : ExecWorld) (sid : String),
      execStop (execStop w sid) sid = execStop w sid) ∧
    (∀ (w : LogWorld) (sid : String), w.find sid = none → logStop w sid = w) ∧
    (∀ (w : LogWorld) (sid : String), logStop (logStop w sid) sid = logStop w sid) := by
  have he : ∀ (w : ExecWorld) (sid : String), w.find sid = none → execStop w sid = w := by
    intro w sid h
    unfold execStop
    rw [h]
  have hl : ∀ (w : LogWorld) (sid : String), w.find sid = none → logStop w sid = w := by
    intro w sid h
    unfold logStop
    rw [h]
  refine ⟨he, ?_, hl, ?_⟩
  · intro w sid
    apply he
    unfold ExecWorld.find
    rw [execStop_sessions]
    exact find?_filter_not _ _
  · intro w sid
    apply hl
    unfold LogWorld.find
    rw [logStop_streams]
    exact find?_filter_not _ _

/-- Witness for C8: stopping the absent id `"nope"` on concrete worlds, and
stopping `"s"`/`"j"` twice. -/
theorem C8_stop_idempotent_witness :
    execStop execW1 "nope" = execW1 ∧
    execStop (execStop execW1 "s") "s" = execStop execW1 "s" ∧
    logStop logW1 "nope" = logW1 ∧
    logStop (logStop logW1 "j") "j" = logStop logW1 "j" :=
  ⟨C8_stop_idempotent.1 execW1 "nope" (by decide),
    C8_stop_idempotent.2.1 execW1 "s",
    C8_stop_idempotent.2.2.1 logW1 "nope" (by decide),
    C8_stop_idempotent.2.2.2 logW1 "j"⟩

/-! ## Shell resolution (C9) -/

theorem resolveShell_eq_claim (fe : String → Bool) (shell : String) :
    resolveShell fe shell = claimC9Shell fe shell := by
  unfold resolveShell claimC9Shell
  by_cases h1 : shell = ""
  · subst h1
    simp
  · by_cases h2 : fe shell
    · simp [h1, h2]
    · simp [h1, h2]

/-- C9: the shell `ExecManager.Start` actually spawns is `shellPath` itself
when it is non-empty and passes the availability check; otherwise
`/bin/bash` when that passes the check; otherwise `/bin/sh` — both as a
statement about the resolution function and about the process a successful
`Start` records as spawned. -/
theorem C9_shell_resolution :
    (∀ (fe : String → Bool) (shell : String),
      resolveShell fe shell = claimC9Shell fe shell) ∧
    (∀ (fe : String → Bool) (w : ExecWorld) (sid sh : String),
      w.find sid = none →
      ((execStart fe true w sid sh).1).spawned =
        (w.nextId, claimC9Shell fe sh) :: w.spawned) := by
  refine ⟨resolveShell_eq_claim, ?_⟩
  intro fe w sid sh h
  unfold execStart
  rw [h]
  simp [resolveShell_eq_claim]

/-- Witness for C9: starting `"t1"` on an empty manager, on a system where
the requested shell is missing but `/bin/bash` is present. -/
theorem C9_shell_resolution_witness :
    resolveShell (fun p => p == "/bin/bash") "/bin/zsh" =
      claimC9Shell (fun p => p == "/bin/bash") "/bin/zsh" ∧
    ((execStart (fun p => p == "/bin/bash") true execW0 "t1" "/bin/zsh").1).spawned =
      (execW0.nextId, claimC9Shell (fun p => p == "/bin/bash") "/bin/zsh")
        :: execW0.spawned :=
  ⟨C9_shell_resolution.1 (fun p => p == "/bin/bash") "/bin/zsh",
    C9_shell_resolution.2 (fun p => p == "/bin/bash") execW0 "t1" "/bin/zsh" (by decide)⟩

/-! ## The file tailer delivers appended lines (C2) -/

theorem findNl_encode (l rest : List Char) (hnl : '\n' ∉ l) :
    findNl (l ++ '\n' :: rest) = some l.length := by
  induction l with
  | nil => simp [findNl]
  | cons c t ih =>
      have hc : c ≠ '\n' := fun h => hnl (h ▸ List.mem_cons_self c t)
      have ht : '\n' ∉ t := fun h => hnl (List.mem_cons_of_mem c h)
      simp [findNl, hc, ih ht]

theorem take_encode (l rest : List Char) :
    (l ++ '\n' :: rest).take l.length = l := by
  simp

theorem drop_encode (l rest : List Char) :
    (l ++ '\n' :: rest).drop (l.length + 1) = rest := by
  have h : l ++ '\n' :: rest = (l ++ ['\n']) ++ rest := by simp
  have hlen : (l ++ ['\n']).length = l.length + 1 := by simp
  rw [h, ← hlen, List.drop_left]

theorem encodeLines_append (ls : List (List Char)) (l : List Char) :
    encodeLines (ls ++ [l]) = encodeLines ls ++ (l ++ ['\n']) := by
  induction ls with
  | nil => simp [encodeLines]
  | cons x t ih => simp [encodeLines, ih]

theorem tailPoll_encode (l : List Char) (ls out : List (List Char))
    (hne : l ≠ []) (hnl : '\n' ∉ l) :
    tailPoll ⟨encodeLines (l :: ls), out⟩ = ⟨encodeLines ls, out ++ [l]⟩ := by
  unfold tailPoll
  simp only [encodeLines]
  rw [findNl_encode l _ hnl]
  simp [take_encode, drop_encode, hne]

theorem tailDrain_encode (ls : List (List Char)) :
    ∀ (out : List (List Char)) (fuel : Nat),
    (∀ l ∈ ls, l ≠ [] ∧ '\n' ∉ l) → (encodeLines ls).length ≤ fuel →
    tailDrainFuel fuel ⟨encodeLines ls, out⟩ = out ++ ls := by
  induction ls with
  | nil =>
      intro out fuel _ _
      cases fuel <;> simp [tailDrainFuel, encodeLines]
  | cons l t ih =>
      intro out fuel hg hf
      have hne : l ≠ [] := (hg l (List.mem_cons_self l t)).1
      have hnl : '\n' ∉ l := (hg l (List.mem_cons_self l t)).2
      have hlen : (encodeLines (l :: t)).length =
          l.length + 1 + (encodeLines t).length := by
        simp [encodeLines]
        omega
      cases fuel with
      | zero => omega
      | succ f =>
          have hemp : ¬((⟨encodeLines (l :: t), out⟩ : TailState).unread.isEmpty = true) := by
            simp [encodeLines]
          rw [tailDrainFuel, if_neg hemp, tailPoll_encode l t out hne hnl,
            ih (out ++ [l]) f (fun x hx => hg x (List.mem_cons_of_mem l hx)) (by omega)]
          simp

theorem tailExec_run (ops : List TailOp) :
    ∀ (pend out : List (List Char)),
    (∀ l ∈ pend, l ≠ [] ∧ '\n' ∉ l) →
    (∀ l ∈ appendsOf ops, l ≠ [] ∧ '\n' ∉ l) →
    tailDrainFuel ((tailExec ⟨encodeLines pend, out⟩ ops).unread.length)
        (tailExec ⟨encodeLines pend, out⟩ ops) = out ++ pend ++ appendsOf ops := by
  induction ops with
  | nil =>
      intro pend out hp _
      simp only [tailExec, appendsOf, List.append_nil]
      exact tailDrain_encode pend out _ hp le_rfl
  | cons op rest ih =>
      intro pend out hp ha
      cases op with
      | append l =>
          have hl : l ≠ [] ∧ '\n' ∉ l := ha l (by simp [appendsOf])
          have ha' : ∀ x ∈ appendsOf rest, x ≠ [] ∧ '\n' ∉ x := by
            intro x hx
            exact ha x (by simp [appendsOf, hx])
          have hstep : tailExec ⟨encodeLines pend, out⟩ (TailOp.append l :: rest) =
              tailExec ⟨encodeLines (pend ++ [l]), out⟩ rest := by
            simp [tailExec, encodeLines_append]
          rw [hstep, ih (pend ++ [l]) out ?_ ha']
          · simp [appendsOf]
          · intro x hx
            rcases List.mem_append.mp hx with h | h
            · exact hp x h
            · simpa [List.mem_singleton.mp h] using hl
      | poll =>
          have ha' : ∀ x ∈ appendsOf rest, x ≠ [] ∧ '\n' ∉ x := by
            intro x hx
            exact ha x (by simp [appendsOf, hx])
          cases pend with
          | nil =>
              have hstep : tailExec ⟨encodeLines [], out⟩ (TailOp.poll :: rest) =
                  tailExec ⟨encodeLines [], out⟩ rest := by
                simp [tailExec, tailPoll, encodeLines, findNl]
              rw [hstep, ih [] out (by simp) ha']
              simp [appendsOf]
          | cons l t =>
              have hne : l ≠ [] := (hp l (List.mem_cons_self l t)).1
              have hnl : '\n' ∉ l := (hp l (List.mem_cons_self l t)).2
              have hstep : tailExec ⟨encodeLines (l :: t), out⟩ (TailOp.poll :: rest) =
                  tailExec ⟨encodeLines t, out ++ [l]⟩ rest := by
                simp only [tailExec]
                rw [tailPoll_encode l t out hne hnl]
              rw [hstep, ih t (out ++ [l])
                (fun x hx => hp x (List.mem_cons_of_mem l hx)) ha']
              simp [appendsOf]

/-- C2 (amended): over any interleaving of the tail loop with a producer
that atomically appends whole lines, provided every appended line is
non-empty (and contains no interior newline), the stream delivers exactly
one callback per appended line, in write order — and delivers nothing of
the content that was already in the file when the stream opened it, for
any such pre-existing content, since the tailer seeks to end-of-file
first.  (Empty appended lines are skipped, which is what refutes the claim
as stated.) -/
theorem C2_tail_amended (initContent : List Char) (ops : List TailOp)
    (h : ∀ l ∈ appendsOf ops, l ≠ [] ∧ '\n' ∉ l) :
    tailRun initContent ops = appendsOf ops := by
  unfold tailRun
  simp only [List.drop_length]
  have := tailExec_run ops [] [] (by simp) h
  simpa [encodeLines] using this

/-- Witness for C2 (amended): tailing a file that already contains
`"old\n"`; the producer appends `"x"`, the tailer polls, the producer
appends `"yz"`; exactly `["x", "yz"]` is delivered, in order. -/
theorem C2_tail_witness :
    tailRun ['o', 'l', 'd', '\n']
        [TailOp.append ['x'], TailOp.poll, TailOp.append ['y', 'z']] =
      appendsOf [TailOp.append ['x'], TailOp.poll, TailOp.append ['y', 'z']] :=
  C2_tail_amended _ _ (by decide)

/-- Counterexample to C2 as stated: appending one line that happens to be
empty (the producer writes a lone `"\n"`) yields zero callback invocations,
not one — `tailFile` skips empty lines (`if line != ""`). -/
theorem C2_counterexample :
    (appendsOf [TailOp.append []]).length = 1 ∧
    tailRun ['a', '\n'] [TailOp.append []] = [] := by
  constructor
  · rfl
  · rfl

/-! ## Delivered lines are non-empty and newline-free (C10) -/

theorem findNl_none_not_mem (cs : List Char) (h : findNl cs = none) : '\n' ∉ cs := by
  induction cs with
  | nil => simp
  | cons c t ih =>
      unfold findNl at h
      by_cases hc : c == '\n'
      · rw [if_pos hc] at h
        exact absurd h (by simp)
      · rw [if_neg hc] at h
        intro hm
        rcases List.mem_cons.mp hm with h1 | h2
        · subst h1
          simp at hc
        · exact ih (Option.map_eq_none'.mp h) h2

theorem findNl_take_not_mem (cs : List Char) :
    ∀ r : Nat, findNl cs = some r → '\n' ∉ cs.take r := by
  induction cs with
  | nil => intro r h; simp [findNl] at h
  | cons c t ih =>
      intro r h
      unfold findNl at h
      by_cases hc : c == '\n'
      · rw [if_pos hc] at h
        cases h
        simp
      · rw [if_neg hc] at h
        rcases Option.map_eq_some'.mp h with ⟨r', hr', hrr⟩
        subst hrr
        simp only [List.take_succ_cons]
        intro hm
        rcases List.mem_cons.mp hm with h1 | h2
        · subst h1
          simp at hc
        · exact ih r' hr' h2

theorem dropCR_not_mem (l : List Char) (h : '\n' ∉ l) : '\n' ∉ dropCR l := by
  unfold dropCR
  by_cases hl : l.getLast? == some '\r'
  · rw [if_pos hl]
    intro hm
    exact h (List.dropLast_sublist l |>.mem hm)
  · rw [if_neg hl]
    exact h

theorem mem_of_getLast?_some (l : List Char) (a : Char) (h : l.getLast? = some a) :
    a ∈ l := by
  induction l with
  | nil => simp at h
  | cons x xs ih =>
      cases xs with
      | nil =>
          simp only [List.getLast?_singleton, Option.some.injEq] at h
          simp [h]
      | cons y ys =>
          rw [List.getLast?_cons_cons] at h
          exact List.mem_cons_of_mem x (ih h)

theorem scanTokensFuel_not_mem (fuel : Nat) :
    ∀ cs : List Char, ∀ t ∈ scanTokensFuel fuel cs, '\n' ∉ t := by
  induction fuel with
  | zero => intro cs t ht; simp [scanTokensFuel] at ht
  | succ f ih =>
      intro cs t ht
      unfold scanTokensFuel at ht
      split at ht
      · next r hr =>
          rcases List.mem_cons.mp ht with h1 | h2
          · subst h1
            exact dropCR_not_mem _ (findNl_take_not_mem cs r hr)
          · exact ih (cs.drop (r + 1)) t h2
      · next hr =>
          by_cases he : cs.isEmpty
          · simp [he] at ht
          · rw [if_neg he] at ht
            rcases List.mem_singleton.mp ht with h1
            subst h1
            exact dropCR_not_mem _ (findNl_none_not_mem cs hr)

theorem scanTokens_not_mem (cs : List Char) : ∀ t ∈ scanTokens cs, '\n' ∉ t :=
  scanTokensFuel_not_mem cs.length cs

theorem tailPoll_out_good (st : TailState)
    (h : ∀ l ∈ st.out, l ≠ [] ∧ '\n' ∉ l) :
    ∀ l ∈ (tailPoll st).out, l ≠ [] ∧ '\n' ∉ l := by
  unfold tailPoll
  split
  · exact h
  · next r hf =>
      intro l hl
      simp only [List.mem_append] at hl
      rcases hl with h1 | h2
      · exact h l h1
      · by_cases he : (st.unread.take r).isEmpty
        · simp [he] at h2
        · rw [if_neg he] at h2
          rcases List.mem_singleton.mp h2 with h3
          subst h3
          exact ⟨by simpa [List.isEmpty_iff] using he, findNl_take_not_mem _ r hf⟩

theorem tailExec_out_good (ops : List TailOp) :
    ∀ st : TailState, (∀ l ∈ st.out, l ≠ [] ∧ '\n' ∉ l) →
    ∀ l ∈ (tailExec st ops).out, l ≠ [] ∧ '\n' ∉ l := by
  induction ops with
  | nil => intro st h; simpa [tailExec] using h
  | cons op rest ih =>
      intro st h
      cases op with
      | append l =>
          show ∀ x ∈ (tailExec { st with unread := st.unread ++ l ++ ['\n'] } rest).out, _
          exact ih _ h
      | poll =>
          show ∀ x ∈ (tailExec (tailPoll st) rest).out, _
          exact ih _ (tailPoll_out_good st h)

theorem tailDrainFuel_good (fuel : Nat) :
    ∀ st : TailState, (∀ l ∈ st.out, l ≠ [] ∧ '\n' ∉ l) →
    ∀ l ∈ tailDrainFuel fuel st, l ≠ [] ∧ '\n' ∉ l := by
  induction fuel with
  | zero => intro st h; simpa [tailDrainFuel] using h
  | succ f ih =>
      intro st h
      simp only [tailDrainFuel]
      by_cases he : st.unread.isEmpty
      · simpa [he] using h
      · rw [if_neg he]
        exact ih (tailPoll st) (tailPoll_out_good st h)

/-- C10: every string that reaches a `LogStreamer` callback — whether from
the command-pipe reader (`readPipe`) or from the file tailer (`tailFile`),
over any input and any interleaving — is non-empty and does not end with a
newline character: empty lines are skipped and the line terminator is
stripped before delivery. -/
theorem C10_callback_lines :
    (∀ (pipe l : List Char), l ∈ readPipeRun pipe →
      l ≠ [] ∧ l.getLast? ≠ some '\n') ∧
    (∀ (initContent : List Char) (ops : List TailOp) (l : List Char),
      l ∈ tailRun initContent ops → l ≠ [] ∧ l.getLast? ≠ some '\n') := by
  have hlast : ∀ l : List Char, '\n' ∉ l → l.getLast? ≠ some '\n' := by
    intro l h hc
    exact h (mem_of_getLast?_some l '\n' hc)
  constructor
  · intro pipe l hl
    unfold readPipeRun at hl
    have hmem := List.mem_of_mem_filter hl
    have hne : ¬l.isEmpty := by simpa using List.of_mem_filter hl
    exact ⟨by simpa [List.isEmpty_iff] using hne,
      hlast l (scanTokens_not_mem pipe l hmem)⟩
  · intro initContent ops l hl
    unfold tailRun at hl
    have := tailDrainFuel_good _ _ (tailExec_out_good ops _ (by simp)) l hl
    exact ⟨this.1, hlast l this.2⟩

/-- Witness for C10: a concrete pipe delivering `"hi"` (the empty line is
skipped) and a concrete tail run delivering `"x"`. -/
theorem C10_callback_lines_witness :
    ((['h', 'i'] : List Char) ≠ [] ∧
      (['h', 'i'] : List Char).getLast? ≠ some '\n') ∧
    ((['x'] : List Char) ≠ [] ∧ (['x'] : List Char).getLast? ≠ some '\n') :=
  ⟨C10_callback_lines.1 ['h', 'i', '\n', '\n', 'y'] ['h', 'i'] (by decide),
    C10_callback_lines.2 [] [TailOp.append ['x']] ['x'] (by decide)⟩

/-! ## `StopAll` empties the registry and releases resources (C7) -/

theorem execStop_killed_mono (w : ExecWorld) (sid : String) :
    w.killed ⊆ (execStop w sid).killed := by
  unfold execStop
  cases w.find sid with
  | none => exact fun x hx => hx
  | some s => exact fun x hx => List.mem_cons_of_mem _ hx

theorem execStop_closedPtys_mono (w : ExecWorld) (sid : String) :
    w.closedPtys ⊆ (execStop w sid).closedPtys := by
  unfold execStop
  cases w.find sid with
  | none => exact fun x hx => hx
  | some s => exact fun x hx => List.mem_cons_of_mem _ hx

theorem execStopList_killed_mono (ids : List String) :
    ∀ w : ExecWorld, w.killed ⊆ (execStopList w ids).killed := by
  induction ids with
  | nil => intro w; exact fun x hx => hx
  | cons a t ih =>
      intro w
      exact fun x hx => ih (execStop w a) (execStop_killed_mono w a hx)

theorem execStopList_closedPtys_mono (ids : List String) :
    ∀ w : ExecWorld, w.closedPtys ⊆ (execStopList w ids).closedPtys := by
  induction ids with
  | nil => intro w; exact fun x hx => hx
  | cons a t ih =>
      intro w
      exact fun x hx => ih (execStop w a) (execStop_closedPtys_mono w a hx)

theorem execStop_nodup (w : ExecWorld) (sid : String)
    (h : (w.sessions.map (fun s => s.id)).Nodup) :
    ((execStop w sid).sessions.map (fun s => s.id)).Nodup := by
  rw [execStop_sessions]
  exact h.sublist ((w.sessions.filter_sublist).map (fun s => s.id))

theorem find?_eq_of_mem_nodup (l : List ExecSession) (s : ExecSession)
    (h : (l.map (fun x => x.id)).Nodup) (hm : s ∈ l) :
    l.find? (fun x => x.id == s.id) = some s := by
  induction l with
  | nil => cases hm
  | cons a t ih =>
      rcases List.mem_cons.mp hm with h1 | h2
      · subst h1
        simp [List.find?_cons]
      · have hna : ¬(a.id == s.id) = true := by
          intro hbe
          have h1 : a.id ∉ t.map (fun x => x.id) := (List.nodup_cons.mp h).1
          have h2m : s.id ∈ t.map (fun x => x.id) :=
            List.mem_map_of_mem (fun x => x.id) h2
          exact h1 (by rwa [show a.id = s.id from by simpa using hbe])
        have hfa : (a.id == s.id) = false := by simpa using hna
        rw [List.find?_cons, hfa]
        exact ih (List.nodup_cons.mp h).2 h2

theorem execStopList_kills (ids : List String) :
    ∀ w : ExecWorld, (w.sessions.map (fun s => s.id)).Nodup →
    ∀ s ∈ w.sessions, s.id ∈ ids →
    s.pid ∈ (execStopList w ids).killed ∧
      s.ptyId ∈ (execStopList w ids).closedPtys := by
  induction ids with
  | nil => intro w _ s _ hin; cases hin
  | cons a rest ih =>
      intro w hnd s hs hin
      simp only [execStopList]
      by_cases ha : s.id = a
      · have hf : w.find a = some s := by
          subst ha
          exact find?_eq_of_mem_nodup w.sessions s hnd hs
        have hk : s.pid ∈ (execStop w a).killed := by
          unfold execStop
          rw [hf]
          exact List.mem_cons_self _ _
        have hp : s.ptyId ∈ (execStop w a).closedPtys := by
          unfold execStop
          rw [hf]
          exact List.mem_cons_self _ _
        exact ⟨execStopList_killed_mono rest (execStop w a) hk,
          execStopList_closedPtys_mono rest (execStop w a) hp⟩
      · have hs' : s ∈ (execStop w a).sessions := by
          rw [execStop_sessions]
          exact List.mem_filter.mpr ⟨hs, by simp [ha]⟩
        have hin' : s.id ∈ rest := by
          rcases List.mem_cons.mp hin with h1 | h2
          · exact absurd h1 ha
          · exact h2
        exact ih (execStop w a) (execStop_nodup w a hnd) s hs' hin'

theorem execStopList_sessions_nil (ids : List String) :
    ∀ w : ExecWorld, (∀ s ∈ w.sessions, s.id ∈ ids) →
    (execStopList w ids).sessions = [] := by
  induction ids with
  | nil =>
      intro w h
      exact List.eq_nil_iff_forall_not_mem.mpr (fun s hs => by simpa using h s hs)
  | cons a rest ih =>
      intro w h
      simp only [execStopList]
      apply ih
      intro s hs
      rw [execStop_sessions] at hs
      rcases List.mem_filter.mp hs with ⟨hmem, hne⟩
      rcases List.mem_cons.mp (h s hmem) with h1 | h2
      · exact absurd h1 (by simpa using hne)
      · exact h2

theorem execStart_of_nil (fe : String → Bool) (w : ExecWorld) (sid sh : String)
    (h : w.sessions = []) : (execStart fe true w sid sh).2 = StartResult.ok := by
  unfold execStart ExecWorld.find
  rw [h]
  rfl

theorem foldl_teardown_streams (ss : List LogStream) :
    ∀ w : LogWorld, (ss.foldl logTeardown w).streams = w.streams := by
  induction ss with
  | nil => intro w; rfl
  | cons s t ih =>
      intro w
      rw [List.foldl_cons, ih, logTeardown_streams]

theorem logTeardown_killed_mono (w : LogWorld) (s : LogStream) :
    w.killed ⊆ (logTeardown w s).killed := by
  unfold logTeardown
  cases s.cmd <;> cases s.fileH <;>
    exact fun x hx => by simp [hx]

theorem logTeardown_closedFiles_mono (w : LogWorld) (s : LogStream) :
    w.closedFiles ⊆ (logTeardown w s).closedFiles := by
  unfold logTeardown
  cases s.cmd <;> cases s.fileH <;>
    exact fun x hx => by simp [hx]

theorem foldl_teardown_killed_mono (ss : List LogStream) :
    ∀ w : LogWorld, w.killed ⊆ (ss.foldl logTeardown w).killed := by
  induction ss with
  | nil => intro w; exact fun x hx => hx
  | cons s t ih =>
      intro w
      rw [List.foldl_cons]
      exact fun x hx => ih (logTeardown w s) (logTeardown_killed_mono w s hx)

theorem foldl_teardown_closedFiles_mono (ss : List LogStream) :
    ∀ w : LogWorld, w.closedFiles ⊆ (ss.foldl logTeardown w).closedFiles := by
  induction ss with
  | nil => intro w; exact fun x hx => hx
  | cons s t ih =>
      intro w
      rw [List.foldl_cons]
      exact fun x hx => ih (logTeardown w s) (logTeardown_closedFiles_mono w s hx)

theorem logTeardown_kills (w : LogWorld) (s : LogStream) (p : Nat)
    (h : s.cmd = some p) : p ∈ (logTeardown w s).killed := by
  unfold logTeardown
  rw [h]
  cases s.fileH <;> simp

theorem logTeardown_closes (w : LogWorld) (s : LogStream) (f : Nat)
    (h : s.fileH = some f) : f ∈ (logTeardown w s).closedFiles := by
  unfold logTeardown
  rw [h]
  cases s.cmd <;> simp

theorem foldl_teardown_releases (ss : List LogStream) :
    ∀ (w : LogWorld) (s : LogStream), s ∈ ss →
    (∀ p, s.cmd = some p → p ∈ (ss.foldl logTeardown w).killed) ∧
    (∀ f, s.fileH = some f → f ∈ (ss.foldl logTeardown w).closedFiles) := by
  induction ss with
  | nil => intro w s hs; cases hs
  | cons a t ih =>
      intro w s hs
      rw [List.foldl_cons]
      rcases List.mem_cons.mp hs with h1 | h2
      · subst h1
        constructor
        · intro p hp
          exact foldl_teardown_killed_mono t (logTeardown w s)
            (logTeardown_kills w s p hp)
        · intro f hf
          exact foldl_teardown_closedFiles_mono t (logTeardown w s)
            (logTeardown_closes w s f hf)
      · exact ih (logTeardown w a) s h2

theorem startJournalctl_of_nil (w : LogWorld) (sid : String)
    (h : w.streams = []) : (startJournalctlStream true w sid).2 = StartResult.ok := by
  unfold startJournalctlStream LogWorld.find
  rw [h]
  rfl

/-- C7: after `StopAll()` on either manager the registry is empty, every
previously registered session's process has been killed and its PTY closed
(resp. every stream's process killed and open file closed), and a
subsequent `Start` with any prior identifier succeeds.  The `Nodup`
hypothesis is the Go-map invariant that the registry holds at most one
entry per identifier. -/
theorem C7_stopAll_releases (w : ExecWorld) (lw : LogWorld)
    (hnd : (w.sessions.map (fun s => s.id)).Nodup) :
    (execStopAll w).sessions = [] ∧
    (∀ s ∈ w.sessions, s.pid ∈ (execStopAll w).killed ∧
      s.ptyId ∈ (execStopAll w).closedPtys) ∧
    (∀ s ∈ w.sessions, ∀ (fe : String → Bool) (sh : String),
      (execStart fe true (execStopAll w) s.id sh).2 = StartResult.ok) ∧
    (logStopAll lw).streams = [] ∧
    (∀ s ∈ lw.streams,
      (∀ p, s.cmd = some p → p ∈ (logStopAll lw).killed) ∧
      (∀ f, s.fileH = some f → f ∈ (logStopAll lw).closedFiles)) ∧
    (∀ s ∈ lw.streams, (startJournalctlStream true (logStopAll lw) s.ID).2 =
      StartResult.ok) := by
  have hnil : (execStopAll w).sessions = [] :=
    execStopList_sessions_nil _ w
      (fun s hs => List.mem_map_of_mem (fun x => x.id) hs)
  have lnil : (logStopAll lw).streams = [] := by
    unfold logStopAll
    rw [foldl_teardown_streams]
  refine ⟨hnil, ?_, ?_, lnil, ?_, ?_⟩
  · intro s hs
    exact execStopList_kills _ w hnd s hs
      (List.mem_map_of_mem (fun x => x.id) hs)
  · intro s _ fe sh
    exact execStart_of_nil fe _ s.id sh hnil
  · intro s hs
    exact foldl_teardown_releases lw.streams _ s hs
  · intro s _
    exact startJournalctl_of_nil _ s.ID lnil

/-! ## The `LogStream` machine invariant (C3 amended, C6) -/

theorem logMachStep_inv (m : LogMach) (a : LAct) (h : LogInv m) :
    LogInv (logMachStep m a) := by
  obtain ⟨reg, stp, cnt, alive, pend, pend2, rp, rp2, wp, sp, sf, srs,
    late1, late2⟩ := m
  unfold LogInv at h
  dsimp only at h
  obtain ⟨h1, h2, h3, h4, h5a, h5b, h6a, h6b, h7, h8⟩ := h
  cases a with
  | readerCheckDone =>
      cases rp <;>
        first
        | exact ⟨h1, h2, h3, h4, h5a, h5b, h6a, h6b, h7, h8⟩
        | (simp only [logMachStep]
           split <;>
             exact ⟨h1, h2, h3, h4, h5a, h5b,
               fun ha hb => by simpa [deliverPot] using h6a ha hb, h6b, h7, h8⟩)
  | readerScan =>
      cases rp <;>
        first
        | exact ⟨h1, h2, h3, h4, h5a, h5b, h6a, h6b, h7, h8⟩
        | (cases pend <;> simp only [logMachStep] <;> split <;>
             exact ⟨h1, h2, h3, h4, h5a, h5b,
               fun ha hb => by simpa [deliverPot] using h6a ha hb, h6b, h7, h8⟩)
  | readerCheckFlag =>
      cases rp <;>
        first
        | exact ⟨h1, h2, h3, h4, h5a, h5b, h6a, h6b, h7, h8⟩
        | (simp only [logMachStep]
           split
           · exact ⟨h1, h2, h3, h4, h5a, h5b,
               fun ha hb => by simpa [deliverPot] using h6a ha hb, h6b, h7, h8⟩
           · next hst =>
               refine ⟨h1, h2, h3, h4, h5a, h5b, ?_, h6b, h7, h8⟩
               intro ha hb
               have hb' : srs = true := hb
               have ha' : sf = true := ha
               exact absurd (h3 ha' (by rw [h4.mp hb']; rfl)) hst)
  | readerDeliver =>
      cases rp <;>
        first
        | exact ⟨h1, h2, h3, h4, h5a, h5b, h6a, h6b, h7, h8⟩
        | (simp only [logMachStep]
           refine ⟨h1, h2, h3, h4, ?_, h5b, ?_, h6b, h7, h8⟩
           · intro hs
             have hs' : srs = false := hs
             simp [hs', h5a hs']
           · intro ha hb
             have ha' : sf = true := ha
             have hb' : srs = true := hb
             simpa [hb', deliverPot] using h6a ha' hb')
  | reader2CheckDone =>
      cases rp2 <;>
        first
        | exact ⟨h1, h2, h3, h4, h5a, h5b, h6a, h6b, h7, h8⟩
        | (simp only [logMachStep]
           split <;>
             exact ⟨h1, h2, h3, h4, h5a, h5b, h6a,
               fun ha hb => by simpa [deliverPot] using h6b ha hb, h7, h8⟩)
  | reader2Scan =>
      cases rp2 <;>
        first
        | exact ⟨h1, h2, h3, h4, h5a, h5b, h6a, h6b, h7, h8⟩
        | (cases pend2 <;> simp only [logMachStep] <;> split <;>
             exact ⟨h1, h2, h3, h4, h5a, h5b, h6a,
               fun ha hb => by simpa [deliverPot] using h6b ha hb, h7, h8⟩)
  | reader2CheckFlag =>
      cases rp2 <;>
        first
        | exact ⟨h1, h2, h3, h4, h5a, h5b, h6a, h6b, h7, h8⟩
        | (simp only [logMachStep]
           split
           · exact ⟨h1, h2, h3, h4, h5a, h5b, h6a,
               fun ha hb => by simpa [deliverPot] using h6b ha hb, h7, h8⟩
           · next hst =>
               refine ⟨h1, h2, h3, h4, h5a, h5b, h6a, ?_, h7, h8⟩
               intro ha hb
               have hb' : srs = true := hb
               have ha' : sf = true := ha
               exact absurd (h3 ha' (by rw [h4.mp hb']; rfl)) hst)
  | reader2Deliver =>
      cases rp2 <;>
        first
        | exact ⟨h1, h2, h3, h4, h5a, h5b, h6a, h6b, h7, h8⟩
        | (simp only [logMachStep]
           refine ⟨h1, h2, h3, h4, h5a, ?_, h6a, ?_, h7, h8⟩
           · intro hs
             have hs' : srs = false := hs
             simp [hs', h5b hs']
           · intro ha hb
             have ha' : sf = true := ha
             have hb' : srs = true := hb
             simpa [hb', deliverPot] using h6b ha' hb')
  | procExit => exact ⟨h1, h2, h3, h4, h5a, h5b, h6a, h6b, h7, h8⟩
  | waiterRet =>
      cases wp <;>
        first
        | exact ⟨h1, h2, h3, h4, h5a, h5b, h6a, h6b, h7, h8⟩
        | (simp only [logMachStep]
           split <;> exact ⟨h1, h2, h3, h4, h5a, h5b, h6a, h6b, h7, h8⟩)
  | waiterCleanup =>
      cases wp <;>
        first
        | exact ⟨h1, h2, h3, h4, h5a, h5b, h6a, h6b, h7, h8⟩
        | exact ⟨h1, fun _ => rfl, h3, h4, h5a, h5b, h6a, h6b, h7, h8⟩
  | stopRemove =>
      cases sp <;>
        first
        | exact ⟨h1, h2, h3, h4, h5a, h5b, h6a, h6b, h7, h8⟩
        | (simp only [logMachStep]
           have hsrs : srs = false := by
             cases hsr : srs with
             | false => rfl
             | true => exact absurd (h4.mp hsr) (by simp)
           split
           · refine ⟨by simpa [sDoneClosed] using h1, fun _ => rfl,
               fun _ hfs => by simp [sFlagSet] at hfs, ?_, h5a, h5b,
               fun _ hb => absurd hb (by simp [hsrs]),
               fun _ hb => absurd hb (by simp [hsrs]),
               fun _ => by simp, fun _ => rfl⟩
             rw [hsrs]
             simp
           · have hsf : sf = false := by
               cases hsf2 : sf with
               | false => rfl
               | true => exact absurd rfl (h7 hsf2)
             refine ⟨by simpa [hsf, sDoneClosed] using h1, ?_, ?_, by simp, ?_,
               ?_, ?_, ?_, ?_, ?_⟩
             · intro ha
               exact absurd ha (by simp [hsf])
             · intro ha
               exact absurd ha (by simp [hsf])
             · intro hss
               exact absurd hss (by simp)
             · intro hss
               exact absurd hss (by simp)
             · intro ha _
               exact absurd ha (by simp [hsf])
             · intro ha _
               exact absurd ha (by simp [hsf])
             · intro ha
               exact absurd ha (by simp [hsf])
             · intro hfp
               simp [sFoundPath] at hfp)
  | stopSetFlag =>
      cases sp <;>
        first
        | exact ⟨h1, h2, h3, h4, h5a, h5b, h6a, h6b, h7, h8⟩
        | (simp only [logMachStep]
           have hsf : sf = true := h8 rfl
           have hsrs : srs = false := by
             cases hsr : srs with
             | false => rfl
             | true => exact absurd (h4.mp hsr) (by simp)
           refine ⟨by simpa [sDoneClosed] using h1, h2, fun _ _ => rfl,
             by rw [hsrs]; simp, h5a, h5b,
             fun _ hb => absurd hb (by simp [hsrs]),
             fun _ hb => absurd hb (by simp [hsrs]),
             fun _ => by simp, fun _ => hsf⟩)
  | stopCloseDone =>
      cases sp <;>
        first
        | exact ⟨h1, h2, h3, h4, h5a, h5b, h6a, h6b, h7, h8⟩
        | (simp only [logMachStep]
           have hsf : sf = true := h8 rfl
           have hsrs : srs = false := by
             cases hsr : srs with
             | false => rfl
             | true => exact absurd (h4.mp hsr) (by simp)
           have hc0 : cnt = 0 := by simpa [sDoneClosed] using h1
           refine ⟨by simp [hsf, sDoneClosed, hc0], h2, fun _ _ => h3 hsf rfl,
             by rw [hsrs]; simp, h5a, h5b,
             fun _ hb => absurd hb (by simp [hsrs]),
             fun _ hb => absurd hb (by simp [hsrs]),
             fun _ => by simp, fun _ => hsf⟩)
  | stopKill =>
      cases sp <;>
        first
        | exact ⟨h1, h2, h3, h4, h5a, h5b, h6a, h6b, h7, h8⟩
        | (simp only [logMachStep]
           have hsf : sf = true := h8 rfl
           have hsrs : srs = false := by
             cases hsr : srs with
             | false => rfl
             | true => exact absurd (h4.mp hsr) (by simp)
           refine ⟨by simpa [sDoneClosed] using h1, h2, fun _ _ => h3 hsf rfl,
             by rw [hsrs]; simp, h5a, h5b,
             fun _ hb => absurd hb (by simp [hsrs]),
             fun _ hb => absurd hb (by simp [hsrs]),
             fun _ => by simp, fun _ => hsf⟩)
  | stopReturn =>
      cases sp <;>
        first
        | exact ⟨h1, h2, h3, h4, h5a, h5b, h6a, h6b, h7, h8⟩
        | (simp only [logMachStep]
           have hsf : sf = true := h8 rfl
           have hsrs : srs = false := by
             cases hsr : srs with
             | false => rfl
             | true => exact absurd (h4.mp hsr) (by simp)
           have hlate1 : late1 = 0 := h5a hsrs
           have hlate2 : late2 = 0 := h5b hsrs
           refine ⟨by simpa [sDoneClosed] using h1, h2, fun _ _ => h3 hsf rfl,
             by simp, fun hss => absurd hss (by simp),
             fun hss => absurd hss (by simp), ?_, ?_,
             fun _ => by simp, fun hfp => by simp [sFoundPath] at hfp⟩
           · intro _ _
             cases rp <;> simp [deliverPot, hlate1]
           · intro _ _
             cases rp2 <;> simp [deliverPot, hlate2])

theorem logMachRun_inv (sched : List LAct) :
    ∀ m : LogMach, LogInv m → LogInv (logMachRun m sched) := by
  induction sched with
  | nil => intro m h; exact h
  | cons a t ih =>
      intro m h
      exact ih (logMachStep m a) (logMachStep_inv m a h)

theorem logMachInit_inv (pending pending2 : List (List Char)) :
    LogInv (logMachInit pending pending2) := by
  unfold LogInv logMachInit
  refine ⟨rfl, ?_, ?_, by simp, fun _ => rfl, fun _ => rfl, ?_, ?_, ?_, ?_⟩
  · intro ha
    exact absurd ha (by simp)
  · intro ha
    exact absurd ha (by simp)
  · intro ha
    exact absurd ha (by simp)
  · intro ha
    exact absurd ha (by simp)
  · intro ha
    exact absurd ha (by simp)
  · intro hfp
    simp [sFoundPath] at hfp

/-- C6 (amended): over every interleaving of the reader, the waiter and a
`Stop` call against a live command stream, the stream's `done` channel is
closed *at most* once, and when it is closed, the closer is the `Stop` path
that found the stream registered and removed it from the registry.  (On
the natural-exit teardown path — the process dies and `cleanupStream`
removes the stream — `done` is never closed at all, which is what refutes
"exactly once" as stated; see the counterexample.) -/
theorem C6_done_signal_amended (pending pending2 : List (List Char))
    (sched : List LAct) :
    (logMachRun (logMachInit pending pending2) sched).doneCloseCount ≤ 1 ∧
    ((logMachRun (logMachInit pending pending2) sched).doneCloseCount = 1 →
      (logMachRun (logMachInit pending pending2) sched).stopFound = true ∧
      (logMachRun (logMachInit pending pending2) sched).registered = false) := by
  have hinv := logMachRun_inv sched (logMachInit pending pending2)
    (logMachInit_inv pending pending2)
  unfold LogInv at hinv
  obtain ⟨h1, h2, _, _, _, _, _, _, _, _⟩ := hinv
  constructor
  · rw [h1]
    split <;> omega
  · intro hc
    rw [h1] at hc
    by_cases hb : ((logMachRun (logMachInit pending pending2) sched).stopFound &&
        sDoneClosed (logMachRun (logMachInit pending pending2) sched).sphase) = true
    · have hb' :
          (logMachRun (logMachInit pending pending2) sched).stopFound = true ∧
          sDoneClosed (logMachRun (logMachInit pending pending2) sched).sphase =
            true := by
        simpa using hb
      exact ⟨hb'.1, h2 hb'.1⟩
    · rw [if_neg hb] at hc
      exact absurd hc (by simp)

/-- Witness for C6 (amended): a full explicit `Stop` of a live stream —
`done` closed exactly once, by the call that removed the stream. -/
theorem C6_done_signal_witness :
    (logMachRun (logMachInit [] [])
      [LAct.stopRemove, LAct.stopSetFlag, LAct.stopCloseDone, LAct.stopKill,
        LAct.stopReturn]).doneCloseCount = 1 ∧
    (logMachRun (logMachInit [] [])
      [LAct.stopRemove, LAct.stopSetFlag, LAct.stopCloseDone, LAct.stopKill,
        LAct.stopReturn]).stopFound = true ∧
    (logMachRun (logMachInit [] [])
      [LAct.stopRemove, LAct.stopSetFlag, LAct.stopCloseDone, LAct.stopKill,
        LAct.stopReturn]).registered = false := by
  have h := C6_done_signal_amended [] []
      [LAct.stopRemove, LAct.stopSetFlag, LAct.stopCloseDone, LAct.stopKill,
        LAct.stopReturn]
  exact ⟨by decide, (h.2 (by decide)).1, (h.2 (by decide)).2⟩

/-- Counterexample to C6 as stated: the natural-exit teardown path.  The
follower process exits on its own, the waiter's `cleanupStream` removes the
stream from the registry, both readers see EOF and finish — the unit's
whole lifetime is over, every worker has returned, yet `close(done)` ran
zero times, not exactly once. -/
theorem C6_counterexample :
    (logMachRun (logMachInit [] [])
      [LAct.procExit, LAct.waiterRet, LAct.waiterCleanup, LAct.readerCheckDone,
        LAct.readerScan, LAct.reader2CheckDone,
        LAct.reader2Scan]).doneCloseCount = 0 ∧
    (logMachRun (logMachInit [] [])
      [LAct.procExit, LAct.waiterRet, LAct.waiterCleanup, LAct.readerCheckDone,
        LAct.readerScan, LAct.reader2CheckDone,
        LAct.reader2Scan]).registered = false ∧
    (logMachRun (logMachInit [] [])
      [LAct.procExit, LAct.waiterRet, LAct.waiterCleanup, LAct.readerCheckDone,
        LAct.readerScan, LAct.reader2CheckDone,
        LAct.reader2Scan]).rphase = RPhase.finished ∧
    (logMachRun (logMachInit [] [])
      [LAct.procExit, LAct.waiterRet, LAct.waiterCleanup, LAct.readerCheckDone,
        LAct.readerScan, LAct.reader2CheckDone,
        LAct.reader2Scan]).rphase2 = RPhase.finished ∧
    (logMachRun (logMachInit [] [])
      [LAct.procExit, LAct.waiterRet, LAct.waiterCleanup, LAct.readerCheckDone,
        LAct.readerScan, LAct.reader2CheckDone,
        LAct.reader2Scan]).wphase = WPhase.cleaned := by
  refine ⟨rfl, rfl, rfl, rfl, rfl⟩

/-- C3 (amended): for a log stream, once a `Stop(id)` call that actually
found and removed the stream has returned, each of the stream's two reader
workers (stdout and stderr — `startCommandStream`, exec.go lines 410-413,
launches one `readPipe` per pipe, both feeding the same callback) can fire
at most one further callback for that id — the single delivery it was
already committed to, having read the `stopped` flag as false before `Stop`
set it — so at most two late callbacks in total; a reader that checks the
flag after `Stop` observes it set and delivers nothing.  (For exec sessions
the claim fails outright: the wait loop always fires a late exit callback —
see the counterexample.) -/
theorem C3_stop_late_callbacks_amended (pending pending2 : List (List Char))
    (sched : List LAct)
    (hf : (logMachRun (logMachInit pending pending2) sched).stopFound = true)
    (hr : (logMachRun (logMachInit pending pending2) sched).stopRetSeen = true) :
    (logMachRun (logMachInit pending pending2) sched).lateDeliveries1 ≤ 1 ∧
    (logMachRun (logMachInit pending pending2) sched).lateDeliveries2 ≤ 1 ∧
    (logMachRun (logMachInit pending pending2) sched).lateDeliveries1 +
      (logMachRun (logMachInit pending pending2) sched).lateDeliveries2 ≤ 2 := by
  have hinv := logMachRun_inv sched (logMachInit pending pending2)
    (logMachInit_inv pending pending2)
  unfold LogInv at hinv
  obtain ⟨_, _, _, _, _, _, h6a, h6b, _, _⟩ := hinv
  have ha := h6a hf hr
  have hb := h6b hf hr
  exact ⟨by omega, by omega, by omega⟩

/-- Witness for C3 (amended): the racy interleaving itself, on both pipes —
each reader passes its `stopped` check, a full `Stop` runs and returns,
then both deliveries fire: one late delivery per reader, two in total,
exactly the proved bound. -/
theorem C3_stop_late_callbacks_witness :
    (logMachRun (logMachInit [['h', 'i']] [['y', 'o']])
      [LAct.readerCheckDone, LAct.readerScan, LAct.readerCheckFlag,
        LAct.reader2CheckDone, LAct.reader2Scan, LAct.reader2CheckFlag,
        LAct.stopRemove, LAct.stopSetFlag, LAct.stopCloseDone, LAct.stopKill,
        LAct.stopReturn, LAct.readerDeliver,
        LAct.reader2Deliver]).lateDeliveries1 ≤ 1 ∧
    (logMachRun (logMachInit [['h', 'i']] [['y', 'o']])
      [LAct.readerCheckDone, LAct.readerScan, LAct.readerCheckFlag,
        LAct.reader2CheckDone, LAct.reader2Scan, LAct.reader2CheckFlag,
        LAct.stopRemove, LAct.stopSetFlag, LAct.stopCloseDone, LAct.stopKill,
        LAct.stopReturn, LAct.readerDeliver,
        LAct.reader2Deliver]).lateDeliveries2 ≤ 1 ∧
    (logMachRun (logMachInit [['h', 'i']] [['y', 'o']])
      [LAct.readerCheckDone, LAct.readerScan, LAct.readerCheckFlag,
        LAct.reader2CheckDone, LAct.reader2Scan, LAct.reader2CheckFlag,
        LAct.stopRemove, LAct.stopSetFlag, LAct.stopCloseDone, LAct.stopKill,
        LAct.stopReturn, LAct.readerDeliver,
        LAct.reader2Deliver]).lateDeliveries1 +
      (logMachRun (logMachInit [['h', 'i']] [['y', 'o']])
        [LAct.readerCheckDone, LAct.readerScan, LAct.readerCheckFlag,
          LAct.reader2CheckDone, LAct.reader2Scan, LAct.reader2CheckFlag,
          LAct.stopRemove, LAct.stopSetFlag, LAct.stopCloseDone, LAct.stopKill,
          LAct.stopReturn, LAct.readerDeliver,
          LAct.reader2Deliver]).lateDeliveries2 ≤ 2 :=
  C3_stop_late_callbacks_amended [['h', 'i']] [['y', 'o']]
    [LAct.readerCheckDone, LAct.readerScan, LAct.readerCheckFlag,
      LAct.reader2CheckDone, LAct.reader2Scan, LAct.reader2CheckFlag,
      LAct.stopRemove, LAct.stopSetFlag, LAct.stopCloseDone, LAct.stopKill,
      LAct.stopReturn, LAct.readerDeliver, LAct.reader2Deliver]
    (by decide) (by decide)

/-- Counterexample to C3 as stated: in the exec manager, `Stop("s")` kills
the shell and returns; the session's `waitLoop`, which performs no
cancellation check at all, then unblocks — `cmd.Wait` observes the SIGKILL
as an `ExitError` — and invokes the exit callback for `"s"` with code `-1`.
The trace shows an exit callback firing after `Stop` has returned. -/
theorem C3_counterexample :
    (execMachRun "s" execMachInit
      [MAct.startCheck false, MAct.startSpawn false, MAct.startInsert false,
        MAct.stopCall, MAct.waitRet 0]).events =
      [MEvent.startReturned false StartResult.ok, MEvent.stopReturned "s",
        MEvent.exitCb "s" (-1)] := by
  decide

/-- C4: the failing interleaving of two concurrent `ExecManager.Start`
calls with the same id.  Both threads pass the duplicate check (lines
45-50) before either inserts (lines 76-84) — the lock is released in
between — so both spawn a shell and both return success; the second
registration overwrites the first, whose process (pid 0) is left running
and unreachable.  The claim (and §8 of the spec) requires exactly one
success and one `AlreadyExists`; the `LogStreamer` start paths, which hold
the lock across check and insert, meet it, so the exec path is a slip. -/
theorem C4_concurrent_start_both_succeed :
    (execMachRun "s" execMachInit
      [MAct.startCheck false, MAct.startCheck true, MAct.startSpawn false,
        MAct.startSpawn true, MAct.startInsert false, MAct.startInsert true]).events =
      [MEvent.startReturned false StartResult.ok,
        MEvent.startReturned true StartResult.ok] ∧
    (execMachRun "s" execMachInit
      [MAct.startCheck false, MAct.startCheck true, MAct.startSpawn false,
        MAct.startSpawn true, MAct.startInsert false, MAct.startInsert true]).registry =
      [("s", 1)] ∧
    (execMachRun "s" execMachInit
      [MAct.startCheck false, MAct.startCheck true, MAct.startSpawn false,
        MAct.startSpawn true, MAct.startInsert false, MAct.startInsert true]).procAlive =
      [1, 0] := by
  refine ⟨by decide, by decide, by decide⟩

/-- Witness for C7: concrete managers with one exec session `"s"`, one
command stream `"j"` (process 0) and one file stream `"t"` (file handle 1). -/
theorem C7_stopAll_witness :
    (execStopAll execW1).sessions = [] ∧
    (0 : Nat) ∈ (execStopAll execW1).killed ∧
    (0 : Nat) ∈ (execStopAll execW1).closedPtys ∧
    (execStart (fun _ => true) true (execStopAll execW1) "s" "/bin/sh").2 =
      StartResult.ok ∧
    (logStopAll logW1).streams = [] ∧
    (0 : Nat) ∈ (logStopAll logW1).killed ∧
    (1 : Nat) ∈ (logStopAll logW1).closedFiles ∧
    (startJournalctlStream true (logStopAll logW1) "j").2 = StartResult.ok := by
  have h := C7_stopAll_releases execW1 logW1 (by decide)
  have hs : (⟨"s", 0, 0⟩ : ExecSession) ∈ execW1.sessions := by decide
  have hj : (⟨0, "j", "", .command, some 0, none⟩ : LogStream) ∈ logW1.streams := by
    decide
  have ht : (⟨1, "t", "", .file, none, some 1⟩ : LogStream) ∈ logW1.streams := by
    decide
  exact ⟨h.1, (h.2.1 _ hs).1, (h.2.1 _ hs).2, h.2.2.1 _ hs (fun _ => true) "/bin/sh",
    h.2.2.2.1, (h.2.2.2.2.1 _ hj).1 0 rfl, (h.2.2.2.2.1 _ ht).2 1 rfl,
    h.2.2.2.2.2 _ hj⟩
